import Mathlib

/-!
Verification of the retrieval-augmented research pipeline
(`backend/app/doc_store.py`, `backend/app/pgvector_store.py`,
`backend/app/langgraph_stub.py`, `backend/app/trace_store.py`).

Python strings are modelled as lists of characters (`Str`), Python floats as
rationals (`ℚ`), Python `max(0, a - b)` on integers as truncated subtraction
on `Nat`.  External capabilities (the language-model `generate` call, the
pgvector-backed SQL search, wall-clock timestamps) enter as function
parameters of the definitions that consume them.
-/

/-- Characters of a Python `str`. -/
abbrev Str := List Char

/-! ## The chunker (`_chunk_text`, identical in `doc_store.py` and `pgvector_store.py`)

```
def _chunk_text(text, chunk_size=500, overlap=50):
    if not text:
        return []
    chunks = []
    start = 0
    length = len(text)
    while start < length:
        end = min(start + chunk_size, length)
        chunk = text[start:end]
        chunks.append((chunk, start, end))
        if end == length:
            break
        start = max(0, end - overlap)
    return chunks
```
-/

/-- The `while start < length` loop of `_chunk_text`, allowed `fuel` more
iterations: `none` means the loop has not finished within `fuel` iterations.
`text[start:end]` is `(text.drop start).take (end - start)`; Python's
`max(0, end - overlap)` is truncated subtraction on `Nat`. -/
def chunkLoop (text : Str) (chunkSize overlap length : Nat) :
    Nat → Nat → Option (List (Str × Nat × Nat))
  | 0, _ => none
  | fuel + 1, start =>
    if start < length then
      let e := min (start + chunkSize) length
      let chunk := (text.drop start).take (e - start)
      if e = length then some [(chunk, start, e)]
      else (chunkLoop text chunkSize overlap length fuel (e - overlap)).map
        (fun rest => (chunk, start, e) :: rest)
    else some []

/-- `_chunk_text(text, chunk_size, overlap)`.  The loop is run with fuel
`text.length + 1`, which suffices whenever `overlap < chunk_size` (proved
below); `none` records that the loop did not finish. -/
def chunkText (text : Str) (chunkSize overlap : Nat) : Option (List (Str × Nat × Nat)) :=
  if text = [] then some []
  else chunkLoop text chunkSize overlap text.length (text.length + 1) 0

/-- The start offset the loop body hands to the next iteration:
`max(0, min(start + chunk_size, length) - overlap)`. -/
def nextStart (chunkSize overlap length start : Nat) : Nat :=
  min (start + chunkSize) length - overlap

/-- Everything the loop guarantees about one complete run that began at
`start < length`, provided `overlap < chunkSize`: enough fuel exists, the
produced list is non-empty, begins at `start`, ends at `length`, windows are
at most `chunkSize` wide, each next window begins no later than the previous
one ends, and every position from `start` up to `length` is covered. -/
theorem chunkLoop_sound (text : Str) (chunkSize overlap length : Nat)
    (hov : overlap < chunkSize) :
    ∀ fuel start, start < length → length - start < fuel →
    ∃ l, chunkLoop text chunkSize overlap length fuel start = some l ∧
      l ≠ [] ∧
      (l.head?.map fun c => c.2.1) = some start ∧
      ((l.getLast?).map fun c => c.2.2) = some length ∧
      (∀ c ∈ l, c.2.2 - c.2.1 ≤ chunkSize ∧ c.2.1 < c.2.2 ∧ c.2.2 ≤ length) ∧
      l.Chain' (fun a b => b.2.1 ≤ a.2.2) ∧
      (∀ p, start ≤ p → p < length → ∃ c ∈ l, c.2.1 ≤ p ∧ p < c.2.2) := by
  intro fuel
  induction fuel with
  | zero => intro start _ hf; omega
  | succ fuel ih =>
    intro start hs hf
    by_cases he : min (start + chunkSize) length = length
    · refine ⟨[((text.drop start).take (min (start + chunkSize) length - start),
        start, min (start + chunkSize) length)], ?_, ?_, ?_, ?_, ?_, ?_, ?_⟩
      · simp only [chunkLoop, if_pos hs, if_pos he]
      · simp
      · simp
      · simp [he]
      · intro c hc
        simp only [List.mem_singleton] at hc
        subst hc
        simp only
        omega
      · simp
      · intro p hp hp'
        refine ⟨_, List.mem_singleton.mpr rfl, ?_, ?_⟩ <;> simp <;> omega
    · have hlt : start + chunkSize < length := by omega
      have hmin : min (start + chunkSize) length = start + chunkSize :=
        Nat.min_eq_left (Nat.le_of_lt hlt)
      have hs' : start + chunkSize - overlap < length := by omega
      have hf' : length - (start + chunkSize - overlap) < fuel := by omega
      obtain ⟨rest, hrest, hne, hhead, hlast, hbound, hchain, hcover⟩ :=
        ih (start + chunkSize - overlap) hs' hf'
      refine ⟨((text.drop start).take (min (start + chunkSize) length - start),
        start, min (start + chunkSize) length) :: rest, ?_, ?_, ?_, ?_, ?_, ?_, ?_⟩
      · simp only [chunkLoop, if_pos hs, if_neg he]
        rw [hmin, hrest]
        rfl
      · simp
      · simp
      · rcases rest with _ | ⟨r, rs⟩
        · exact absurd rfl hne
        · simpa using hlast
      · intro c hc
        rcases List.mem_cons.mp hc with hc | hc
        · subst hc
          simp only
          omega
        · exact hbound c hc
      · rw [List.chain'_cons']
        refine ⟨?_, hchain⟩
        intro b hb
        rcases rest with _ | ⟨r, rs⟩
        · simp at hb
        · simp only [List.head?_cons, Option.mem_def, Option.some.injEq] at hb
          subst hb
          have hr : r.2.1 = start + chunkSize - overlap := by simpa using hhead
          show r.2.1 ≤ min (start + chunkSize) length
          omega
      · intro p hp hp'
        rcases Nat.lt_or_ge p (min (start + chunkSize) length) with h | h
        · exact ⟨_, List.mem_cons_self .., by simpa using hp, by simpa using h⟩
        · obtain ⟨c, hc, h1, h2⟩ := hcover p (by omega) hp'
          exact ⟨c, List.mem_cons_of_mem _ hc, h1, h2⟩

/-- C1: for every non-empty text and parameters with `overlap < chunk_size`,
`_chunk_text` finishes and returns chunks whose first offset is `0`, whose
last offset is `len(text)`, with every window at most `chunk_size` wide, each
next window starting no later than the previous one ends, and the half-open
ranges covering `[0, len(text))` with no gap; the empty text yields the
empty sequence. -/
theorem chunkText_coverage (text : Str) (chunkSize overlap : Nat)
    (hov : overlap < chunkSize) :
    ∃ chunks, chunkText text chunkSize overlap = some chunks ∧
      (text = [] → chunks = []) ∧
      (text ≠ [] →
        chunks ≠ [] ∧
        (chunks.head?.map fun c => c.2.1) = some 0 ∧
        ((chunks.getLast?).map fun c => c.2.2) = some text.length ∧
        (∀ c ∈ chunks, c.2.2 - c.2.1 ≤ chunkSize ∧ c.2.1 < c.2.2 ∧ c.2.2 ≤ text.length) ∧
        chunks.Chain' (fun a b => b.2.1 ≤ a.2.2) ∧
        (∀ p, p < text.length → ∃ c ∈ chunks, c.2.1 ≤ p ∧ p < c.2.2)) := by
  by_cases hT : text = []
  · exact ⟨[], by simp [chunkText, hT], fun _ => rfl, fun h => absurd hT h⟩
  · have hlen : 0 < text.length := List.length_pos.mpr hT
    obtain ⟨l, hl, hne, hhead, hlast, hbound, hchain, hcover⟩ :=
      chunkLoop_sound text chunkSize overlap text.length hov (text.length + 1) 0
        hlen (by omega)
    refine ⟨l, ?_, fun h => absurd h hT, fun _ => ?_⟩
    · simp [chunkText, hT, hl]
    · exact ⟨hne, hhead, hlast, hbound, hchain, fun p hp => hcover p (Nat.zero_le p) hp⟩

/-- C1 witness: the properties evaluated on the concrete text `"abcde"` with
`chunk_size = 2`, `overlap = 1`. -/
theorem chunkText_coverage_witness :
    ∃ chunks, chunkText "abcde".toList 2 1 = some chunks ∧
      ("abcde".toList = [] → chunks = []) ∧
      ("abcde".toList ≠ [] →
        chunks ≠ [] ∧
        (chunks.head?.map fun c => c.2.1) = some 0 ∧
        ((chunks.getLast?).map fun c => c.2.2) = some "abcde".toList.length ∧
        (∀ c ∈ chunks, c.2.2 - c.2.1 ≤ 2 ∧ c.2.1 < c.2.2 ∧
          c.2.2 ≤ "abcde".toList.length) ∧
        chunks.Chain' (fun a b => b.2.1 ≤ a.2.2) ∧
        (∀ p, p < "abcde".toList.length →
          ∃ c ∈ chunks, c.2.1 ≤ p ∧ p < c.2.2)) :=
  chunkText_coverage "abcde".toList 2 1 (by decide)

/-- C8 counterexample: in the degenerate case `chunk_size = 1, overlap = 1` on
the two-character text `"aa"` the loop condition `start < length` holds, the
loop body hands the very same `start` to the next iteration (no progress), and
the loop has not terminated within `len(text) + 1` iterations: the
implementation does not guard the degenerate case or fail fast. -/
theorem chunkText_degenerate_no_guard :
    nextStart 1 1 2 0 = 0 ∧ 0 < 2 ∧
    chunkText (List.replicate 2 'a') 1 1 = none := by decide

/-- C8 (amended): for every text the loop terminates whenever
`overlap < chunk_size`; in the degenerate case `overlap ≥ chunk_size` there is
no guard — on a 2-character text with `chunk_size = 1, overlap = 1` the loop
makes no progress and no amount of fuel makes it return. -/
theorem chunkText_termination :
    (∀ (text : Str) (chunkSize overlap : Nat), overlap < chunkSize →
      ∃ chunks, chunkText text chunkSize overlap = some chunks) ∧
    (∀ fuel, chunkLoop (List.replicate 2 'a') 1 1 2 fuel 0 = none) := by
  constructor
  · intro text chunkSize overlap hov
    by_cases hT : text = []
    · exact ⟨[], by simp [chunkText, hT]⟩
    · obtain ⟨l, hl, -⟩ := chunkLoop_sound text chunkSize overlap text.length hov
        (text.length + 1) 0 (List.length_pos.mpr hT) (by omega)
      exact ⟨l, by simp [chunkText, hT, hl]⟩
  · intro fuel
    induction fuel with
    | zero => rfl
    | succ fuel ih =>
      simp only [chunkLoop, if_pos (by decide : (0:Nat) < 2)]
      have : min (0 + 1) 2 = 1 := by decide
      rw [this]
      simp only [if_neg (by decide : ¬ (1:Nat) = 2)]
      have : (1:Nat) - 1 = 0 := by decide
      rw [this, ih]
      rfl

/-! ## The in-memory document store (`doc_store.py`) -/

namespace DocStore

/-- A sparse token → count vector (`Dict[str, float]` in the source), as an
association list in insertion order. -/
abbrev Vec := List (Str × ℚ)

/-- `b.get(key, 0.0)` on the modelled dict. -/
def dictGet (v : Vec) (k : Str) : ℚ :=
  ((v.find? fun p => p.1 == k).map Prod.snd).getD 0

/-- `_cosine_similarity(a, a_norm, b, b_norm)`: `0.0` when either norm is `0`,
else the dot product over `a`'s keys divided by the product of the norms. -/
def cosineSimilarity (a : Vec) (aNorm : ℚ) (b : Vec) (bNorm : ℚ) : ℚ :=
  if aNorm = 0 ∨ bNorm = 0 then 0
  else (a.foldl (fun dot kv => dot + kv.2 * dictGet b kv.1) 0) / (aNorm * bNorm)

/-- The `DocumentChunk` dataclass; its `metadata` dict always carries the
three keys `url`, `title`, `published_at` (set in `add_document`), modelled as
three fields. -/
structure DocumentChunk where
  chunk_id : Str
  document_id : Str
  text : Str
  score : ℚ
  vector : Vec
  norm : ℚ
  meta_url : Str
  meta_title : Str
  meta_published_at : Str
  chunk_start : Nat
  chunk_end : Nat
deriving DecidableEq

/-- The `for chunk in self._chunks` loop of `DocumentStore.search`: each
chunk's cosine score against the query; chunks with `score <= 0` are skipped
(`continue`), the rest are copied with the `score` field set. -/
def scoredChunks (queryVec : Vec) (queryNorm : ℚ) (chunks : List DocumentChunk) :
    List DocumentChunk :=
  chunks.filterMap fun chunk =>
    let score := cosineSimilarity queryVec queryNorm chunk.vector chunk.norm
    if score ≤ 0 then none
    else some { chunk with score := score }

/-- `DocumentStore.search(query, limit=8)` from its two locals
`query_vec = _vectorize(query)` and `query_norm = _vector_norm(query_vec)` on:
the scored chunks are stably sorted by descending score
(`scored.sort(key=..., reverse=True)` — Python's sort is stable, modelled by
`List.insertionSort`) and truncated to `limit`.  `_vector_norm` is a real
square root, which the ordering/filter/count properties never inspect, so the
query vector and query norm enter as parameters ranging over every value;
the stored chunks (`self._chunks`) likewise range over every corpus state. -/
def search (queryVec : Vec) (queryNorm : ℚ) (chunks : List DocumentChunk)
    (limit : Nat) : List DocumentChunk :=
  ((scoredChunks queryVec queryNorm chunks).insertionSort
    fun a b => b.score ≤ a.score).take limit

/-- Every chunk the filtering loop keeps has strictly positive score. -/
theorem scoredChunks_pos (queryVec : Vec) (queryNorm : ℚ)
    (chunks : List DocumentChunk) :
    ∀ c ∈ scoredChunks queryVec queryNorm chunks, 0 < c.score := by
  intro c hc
  simp only [scoredChunks, List.mem_filterMap] at hc
  obtain ⟨a, -, ha⟩ := hc
  by_cases h : cosineSimilarity queryVec queryNorm a.vector a.norm ≤ 0
  · simp [h] at ha
  · simp only [if_neg h, Option.some.injEq] at ha
    subst ha
    exact lt_of_not_le h

end DocStore

/-! ## The pgvector-backed store (`pgvector_store.py`) -/

namespace PgStore

/-- A row of the `chunks` table created by `init_db`. -/
structure ChunkRow where
  chunk_id : Str
  document_id : Str
  chunk_index : Nat
  text : Str
  embedding : List ℚ
  url : Str
  title : Str
  published_at : Str
  chunk_start : Nat
  chunk_end : Nat
deriving DecidableEq

/-- The dict `pgvector_store.search` yields per returned row. -/
structure SearchRow where
  chunk_id : Str
  document_id : Str
  text : Str
  url : Str
  title : Str
  published_at : Str
  chunk_start : Nat
  chunk_end : Nat
  score : ℚ
deriving DecidableEq

/-- `pgvector_store.search(query, limit)`.  The sentence-transformer embedding
(`embed_texts`) and the pgvector cosine-distance operator `<=>` are external
capabilities, entering as the parameters `embed` and `dist`; the SQL
`SELECT ..., 1 - (embedding <=> qv) AS score FROM chunks ORDER BY embedding <=> qv LIMIT n`
is the sort by ascending distance, truncated to `limit`, each row scored
`1 - dist`.  Note the query applies no positive-score filter. -/
def search (dist : List ℚ → List ℚ → ℚ) (embed : Str → List ℚ)
    (table : List ChunkRow) (query : Str) (limit : Nat) : List SearchRow :=
  ((table.insertionSort fun a b =>
      dist a.embedding (embed query) ≤ dist b.embedding (embed query)).take
    limit).map fun r =>
    { chunk_id := r.chunk_id, document_id := r.document_id, text := r.text,
      url := r.url, title := r.title, published_at := r.published_at,
      chunk_start := r.chunk_start, chunk_end := r.chunk_end,
      score := 1 - dist r.embedding (embed query) }

/-- A concrete one-row table for evaluating `PgStore.search`. -/
def row0 : ChunkRow :=
  { chunk_id := [], document_id := [], chunk_index := 0, text := [],
    embedding := [], url := [], title := [], published_at := [],
    chunk_start := 0, chunk_end := 0 }

end PgStore
/-- C2 counterexample: a corpus state on which `pgvector_store.search` returns
a result whose score is not positive.  With one indexed chunk at cosine
distance `1` from the query (score `1 - 1 = 0`), `search` returns that chunk —
the SQL has no `score > 0` filter, so a zero-similarity chunk is not
excluded. -/
theorem pg_search_score_not_positive :
    ((PgStore.search (fun _ _ => (1:ℚ)) (fun _ => []) [PgStore.row0]
      "q".toList 1).map fun r => r.score) = [0] ∧
    (PgStore.search (fun _ _ => (1:ℚ)) (fun _ => []) [PgStore.row0]
      "q".toList 1).length = 1 := by
  refine ⟨?_, rfl⟩
  show [(1:ℚ) - 1] = [0]
  norm_num

/-- C2 (amended): `DocumentStore.search` returns at most `limit` results,
ordered non-increasing by score with ties kept in the original chunk order
(the equal-score slice of the result is a subsequence of the in-order scored
chunk list), and every returned result has `score > 0`;
`pgvector_store.search` returns at most `limit` results ordered
non-increasing by score, but applies no positive-score filter, so returned
rows may have `score ≤ 0`. -/
theorem search_ordering_and_filtering :
    (∀ (queryVec : DocStore.Vec) (queryNorm : ℚ)
      (chunks : List DocStore.DocumentChunk) (limit : Nat),
      (DocStore.search queryVec queryNorm chunks limit).length ≤ limit ∧
      (DocStore.search queryVec queryNorm chunks limit).Pairwise
        (fun a b => b.score ≤ a.score) ∧
      (∀ c ∈ DocStore.search queryVec queryNorm chunks limit, 0 < c.score) ∧
      (∀ s : ℚ,
        ((DocStore.search queryVec queryNorm chunks limit).filter
          fun c => decide (c.score = s)).Sublist
          (DocStore.scoredChunks queryVec queryNorm chunks))) ∧
    (∀ (dist : List ℚ → List ℚ → ℚ) (embed : Str → List ℚ)
      (table : List PgStore.ChunkRow) (query : Str) (limit : Nat),
      (PgStore.search dist embed table query limit).length ≤ limit ∧
      (PgStore.search dist embed table query limit).Pairwise
        (fun a b => b.score ≤ a.score)) := by
  constructor
  · intro queryVec queryNorm chunks limit
    have hperm := List.perm_insertionSort
      (fun a b : DocStore.DocumentChunk => b.score ≤ a.score)
      (DocStore.scoredChunks queryVec queryNorm chunks)
    have hsorted : ((DocStore.scoredChunks queryVec queryNorm chunks).insertionSort
        fun a b => b.score ≤ a.score).Pairwise (fun a b => b.score ≤ a.score) := by
      haveI : IsTotal DocStore.DocumentChunk (fun a b => b.score ≤ a.score) :=
        ⟨fun a b => le_total b.score a.score⟩
      haveI : IsTrans DocStore.DocumentChunk (fun a b => b.score ≤ a.score) :=
        ⟨fun _ _ _ h1 h2 => le_trans h2 h1⟩
      exact List.sorted_insertionSort _ _
    refine ⟨?_, ?_, ?_, ?_⟩
    · simp only [DocStore.search, List.length_take]
      exact Nat.min_le_left _ _
    · exact hsorted.sublist (List.take_sublist _ _)
    · intro c hc
      exact DocStore.scoredChunks_pos queryVec queryNorm chunks c
        (hperm.mem_iff.mp ((List.take_sublist _ _).mem hc))
    · intro s
      have hfilsub : ((DocStore.scoredChunks queryVec queryNorm chunks).filter
          fun c => decide (c.score = s)).Sublist
          (DocStore.scoredChunks queryVec queryNorm chunks) := List.filter_sublist _
      have hfilpair : ((DocStore.scoredChunks queryVec queryNorm chunks).filter
          fun c => decide (c.score = s)).Pairwise (fun a b => b.score ≤ a.score) := by
        refine List.pairwise_of_forall_mem_list ?_
        intro a ha b hb
        have ha' : a.score = s := of_decide_eq_true (List.mem_filter.mp ha).2
        have hb' : b.score = s := of_decide_eq_true (List.mem_filter.mp hb).2
        rw [ha', hb']
      have hstable := List.sublist_insertionSort hfilpair hfilsub
      have hidem : (((DocStore.scoredChunks queryVec queryNorm chunks).filter
          fun c => decide (c.score = s)).filter fun c => decide (c.score = s)) =
          ((DocStore.scoredChunks queryVec queryNorm chunks).filter
          fun c => decide (c.score = s)) :=
        List.filter_eq_self.mpr fun a ha => (List.mem_filter.mp ha).2
      have h1 := hstable.filter fun c => decide (c.score = s)
      rw [hidem] at h1
      have h2 : (((DocStore.scoredChunks queryVec queryNorm chunks).insertionSort
          fun a b => b.score ≤ a.score).filter fun c => decide (c.score = s)).length =
          ((DocStore.scoredChunks queryVec queryNorm chunks).filter
          fun c => decide (c.score = s)).length :=
        (hperm.filter _).length_eq
      have hEq := h1.eq_of_length h2.symm
      have h3 := (List.take_sublist limit
        ((DocStore.scoredChunks queryVec queryNorm chunks).insertionSort
          fun a b => b.score ≤ a.score)).filter fun c => decide (c.score = s)
      rw [← hEq] at h3
      exact h3.trans hfilsub
  · intro dist embed table query limit
    have hsorted : (table.insertionSort fun a b =>
        dist a.embedding (embed query) ≤ dist b.embedding (embed query)).Pairwise
        (fun a b => dist a.embedding (embed query) ≤ dist b.embedding (embed query)) := by
      haveI : IsTotal PgStore.ChunkRow (fun a b =>
          dist a.embedding (embed query) ≤ dist b.embedding (embed query)) :=
        ⟨fun a b => le_total _ _⟩
      haveI : IsTrans PgStore.ChunkRow (fun a b =>
          dist a.embedding (embed query) ≤ dist b.embedding (embed query)) :=
        ⟨fun _ _ _ h1 h2 => le_trans h1 h2⟩
      exact List.sorted_insertionSort _ _
    constructor
    · simp only [PgStore.search, List.length_map, List.length_take]
      exact Nat.min_le_left _ _
    · have htake := hsorted.sublist (List.take_sublist limit _)
      simp only [PgStore.search, List.pairwise_map]
      exact htake.imp fun h => sub_le_sub_left h 1

/-! ## The agentic pipeline (`langgraph_stub.py`, with `llm_client.py`)

The language-model capability `LLMClient.generate(prompt, user_content)` is a
parameter `gen : Str → Str → Str` of every node that consults it; since it is
a function, repeated application to the same arguments denotes the one reply
the node observed.  `LLMClient._stub` (the deterministic fallback backend) is
embedded as `Graph.stubGenerate`. -/

namespace Graph

/-- Python `str.strip()`: whitespace removed from both ends. -/
def pyStrip (s : Str) : Str :=
  ((s.dropWhile Char.isWhitespace).reverse.dropWhile Char.isWhitespace).reverse

/-- Python `str.lower()` (ASCII case folding). -/
def pyLower (s : Str) : Str := s.map Char.toLower

/-- Python `f"{n:03d}"`: the decimal digits of `n`, left-padded with zeros to
at least three characters. -/
def pad3 (n : Nat) : Str :=
  List.replicate (3 - (Nat.toDigits 10 n).length) '0' ++ Nat.toDigits 10 n

/-- `LLMClient._stub(prompt, user_content)`:
`f"[stub] {prompt} | {user_content[:200]}".strip()`. -/
def stubGenerate (prompt userContent : Str) : Str :=
  pyStrip ("[stub] ".toList ++ prompt ++ " | ".toList ++ userContent.take 200)

/-- The `PlanStep` dataclass. -/
structure PlanStep where
  question : Str
  search_query : Str
deriving DecidableEq

/-- The `EvidenceChunk` dataclass; its `metadata` dict always carries the
keys `url`, `title`, `published_at` (set in `_to_evidence`), modelled as
three fields. -/
structure EvidenceChunk where
  source_id : Str
  chunk_id : Str
  text : Str
  score : ℚ
  meta_url : Str
  meta_title : Str
  meta_published_at : Str
  chunk_start : Nat
  chunk_end : Nat
deriving DecidableEq

/-- The citation dict built by `WriterNode.run`. -/
structure Citation where
  citation_id : Str
  source_id : Str
  title : Str
  url : Str
  published_at : Str
  snippet : Str
  chunk_start : Nat
  chunk_end : Nat
deriving DecidableEq

/-- The claim-verification dict built by `VerifierNode.run`. -/
structure ClaimVerification where
  claim_id : Str
  claim_text : Str
  verdict : Str
  evidence_chunk_ids : List Str
  confidence : ℚ
  notes : Str
deriving DecidableEq

/-- The values occurring in trace-event payloads: strings, integers, floats,
booleans, and lists of strings. -/
inductive PVal where
  | s (v : Str)
  | i (v : ℤ)
  | q (v : ℚ)
  | b (v : Bool)
  | ls (v : List Str)
deriving DecidableEq

/-- The `TraceEvent` dataclass; the payload dict is an association list. -/
structure TraceEvent where
  event_id : Str
  agent : Str
  event_type : Str
  timestamp : Str
  payload : List (Str × PVal)
deriving DecidableEq

/-- The `GraphState` dataclass (the pipeline result). -/
structure GraphState where
  query : Str
  plan : List PlanStep
  evidence : List EvidenceChunk
  draft_answer : Str
  citations : List Citation
  claim_verifications : List ClaimVerification
  confidence_score : ℚ
  refusal : Bool
  trace_events : List TraceEvent

/-- The system prompt of `PlannerNode.run`. -/
def plannerPrompt : Str :=
  ("Create a minimal retrieval plan for the query. " ++
   "Return a short search query string.").toList

/-- `PlannerNode.run(query)`: one plan step whose search query is the
stripped generated text, or `f"{query} evidence"` when that is empty. -/
def plannerRun (gen : Str → Str → Str) (query : Str) : List PlanStep :=
  let searchQuery := pyStrip (gen plannerPrompt query)
  [{ question := "Key points for: ".toList ++ query,
     search_query := if searchQuery = [] then query ++ " evidence".toList
       else searchQuery }]

/-- `RetrieverNode.run(plan, max_results)`: `pg_search(plan[0].search_query
if plan else "", limit=max_results)`; the pgvector-backed `search` enters as
the capability `pgSearch`. -/
def retrieverRun (pgSearch : Str → Nat → List PgStore.SearchRow)
    (plan : List PlanStep) (maxResults : Nat) : List PgStore.SearchRow :=
  pgSearch (match plan with | [] => [] | step :: _ => step.search_query) maxResults

/-- The system prompt of `WriterNode.run`. -/
def writerPrompt : Str :=
  ("Write a grounded answer using only the evidence provided. " ++
   "If evidence is insufficient, say so.").toList

/-- One evidence block: `f"[{chunk.chunk_id}] {chunk.text[:400]}"`. -/
def evidenceBlock (chunk : EvidenceChunk) : Str :=
  "[".toList ++ chunk.chunk_id ++ "] ".toList ++ chunk.text.take 400

/-- `"\n".join(evidence_blocks) if evidence_blocks else "No evidence available."`. -/
def writerContext (evidence : List EvidenceChunk) : Str :=
  if evidence = [] then "No evidence available.".toList
  else List.intercalate ['\n'] (evidence.map evidenceBlock)

/-- The user content handed to the generator by `WriterNode.run`:
`f"Query: {query}\nEvidence:\n{context}"`. -/
def writerUser (query : Str) (evidence : List EvidenceChunk) : Str :=
  "Query: ".toList ++ query ++ "\nEvidence:\n".toList ++ writerContext evidence

/-- The writer's empty-evidence fallback answer:
`f"No indexed sources matched the query: {query}"`. -/
def noSourcesAnswer (query : Str) : Str :=
  "No indexed sources matched the query: ".toList ++ query

/-- The citation dict for `(index, chunk)` in `enumerate(evidence)`. -/
def citationFor (index : Nat) (chunk : EvidenceChunk) : Citation :=
  { citation_id := "cit-".toList ++ pad3 index,
    source_id := chunk.source_id,
    title := chunk.meta_title,
    url := chunk.meta_url,
    published_at := chunk.meta_published_at,
    snippet := chunk.text.take 200,
    chunk_start := chunk.chunk_start,
    chunk_end := chunk.chunk_end }

/-- The dict `{"draft_answer": ..., "citations": ...}` returned by
`WriterNode.run`. -/
structure WriterOutput where
  draft_answer : Str
  citations : List Citation
deriving DecidableEq

/-- `WriterNode.run(query, evidence)`: the generated answer, with a fallback
when it is empty (first evidence text for non-empty evidence, else the
no-sources message), and one citation per evidence chunk in order. -/
def writerRun (gen : Str → Str → Str) (query : Str)
    (evidence : List EvidenceChunk) : WriterOutput :=
  let answer := gen writerPrompt (writerUser query evidence)
  let answer := if answer = [] then
      match evidence with
      | [] => noSourcesAnswer query
      | chunk :: _ =>
        "According to the retrieved sources, ".toList ++ chunk.text.take 160
    else answer
  { draft_answer := answer,
    citations := evidence.enum.map fun ic => citationFor ic.1 ic.2 }

/-- The system prompt of `CriticNode.run`. -/
def criticPrompt : Str :=
  ("Review the answer for missing evidence or unsupported claims. " ++
   "Return a short critique.").toList

/-- `CriticNode.run(query, answer, evidence)`: free-text critique with a
non-empty fallback. -/
def criticRun (gen : Str → Str → Str) (query answer : Str)
    (evidence : List EvidenceChunk) : Str :=
  let context := if evidence = [] then "No evidence.".toList
    else List.intercalate ['\n'] (evidence.map fun chunk => chunk.text.take 200)
  let critique := gen criticPrompt ("Query: ".toList ++ query ++
    "\nAnswer: ".toList ++ answer ++ "\nEvidence: ".toList ++ context)
  if critique = [] then "No critique available.".toList else critique

/-- The system prompt of `VerifierNode.run`. -/
def verifierPrompt : Str :=
  ("Identify up to 2 key claims from the answer and label them as " ++
   "supported or unsupported based on the evidence.").toList

/-- `VerifierNode.run(answer, evidence)`: empty when `answer` or `evidence`
is empty; otherwise one claim whose verdict is `"unsupported"` exactly when
the generated text, lowercased, contains `"unsupported"`. -/
def verifierRun (gen : Str → Str → Str) (answer : Str)
    (evidence : List EvidenceChunk) : List ClaimVerification :=
  if answer = [] ∨ evidence = [] then []
  else
    let verdict := gen verifierPrompt answer
    [{ claim_id := "clm-001".toList,
       claim_text := answer.take 120,
       verdict := if "unsupported".toList <:+: pyLower verdict then
           "unsupported".toList
         else "supported".toList,
       evidence_chunk_ids := (evidence.take 2).map fun chunk => chunk.chunk_id,
       confidence := 66/100,
       notes := if verdict = [] then "Heuristic verification.".toList else verdict }]

/-- Python's `round(x, 2)` at the integer scale: round half to even. -/
def roundHalfEven (q : ℚ) : ℤ :=
  if q - ⌊q⌋ < 1/2 then ⌊q⌋
  else if 1/2 < q - ⌊q⌋ then ⌊q⌋ + 1
  else if ⌊q⌋ % 2 = 0 then ⌊q⌋ else ⌊q⌋ + 1

/-- Python's `round(x, 2)`. -/
def round2 (q : ℚ) : ℚ := (roundHalfEven (100 * q) : ℚ) / 100

/-- `_derive_confidence(claims, evidence)`. -/
def deriveConfidence (claims : List ClaimVerification)
    (evidence : List EvidenceChunk) : ℚ :=
  if evidence = [] then 0
  else if claims = [] then 1/5
  else
    let supported := (claims.filter fun c =>
      c.verdict == "supported".toList).length
    round2 (2/5 + 3/5 * ((supported : ℚ) / ((max claims.length 1 : Nat) : ℚ)))

/-- `_to_evidence(rows)`. -/
def toEvidence (rows : List PgStore.SearchRow) : List EvidenceChunk :=
  rows.map fun row =>
    { source_id := row.document_id, chunk_id := row.chunk_id, text := row.text,
      score := row.score, meta_url := row.url, meta_title := row.title,
      meta_published_at := row.published_at, chunk_start := row.chunk_start,
      chunk_end := row.chunk_end }

/-- `run_graph(query, max_sources)`.  The language model, the pgvector search
and the wall clock (`_now`) are external capabilities, entering as `gen`,
`pgSearch` and `now` (the `k`-th call of `_now()` yields `now k`). -/
def runGraph (gen : Str → Str → Str)
    (pgSearch : Str → Nat → List PgStore.SearchRow) (now : Nat → Str)
    (query : Str) (maxSources : Nat) : GraphState :=
  let plan := plannerRun gen query
  let planEvent : TraceEvent :=
    { event_id := "evt-plan-001".toList, agent := "Planner".toList,
      event_type := "plan".toList, timestamp := now 0,
      payload := [("plan".toList,
        PVal.ls (plan.map fun step => step.search_query))] }
  let rows := retrieverRun pgSearch plan maxSources
  let evidence := toEvidence rows
  let retrievalEvent : TraceEvent :=
    { event_id := "evt-retrieval-001".toList, agent := "Retriever".toList,
      event_type := "retrieve".toList, timestamp := now 1,
      payload := [
        ("query".toList, PVal.s
          (match plan with | [] => query | step :: _ => step.search_query)),
        ("result_count".toList, PVal.i evidence.length)] }
  let writerOutput := writerRun gen query evidence
  let writerEvent : TraceEvent :=
    { event_id := "evt-writer-001".toList, agent := "Writer".toList,
      event_type := "write".toList, timestamp := now 2,
      payload := [("citations".toList, PVal.i writerOutput.citations.length)] }
  let critique := criticRun gen query writerOutput.draft_answer evidence
  let criticEvent : TraceEvent :=
    { event_id := "evt-critic-001".toList, agent := "Critic".toList,
      event_type := "critique".toList, timestamp := now 3,
      payload := [("notes".toList, PVal.s (critique.take 400))] }
  let claimVerifications := verifierRun gen writerOutput.draft_answer evidence
  let confidenceScore := deriveConfidence claimVerifications evidence
  let refusal := decide (confidenceScore < 2/5)
  let verifierEvent : TraceEvent :=
    { event_id := "evt-verify-001".toList, agent := "Verifier".toList,
      event_type := "verify".toList, timestamp := now 4,
      payload := [
        ("claim_count".toList, PVal.i claimVerifications.length),
        ("confidence_score".toList, PVal.q confidenceScore),
        ("refusal".toList, PVal.b refusal)] }
  { query := query, plan := plan, evidence := evidence,
    draft_answer := writerOutput.draft_answer,
    citations := writerOutput.citations,
    claim_verifications := claimVerifications,
    confidence_score := confidenceScore, refusal := refusal,
    trace_events := [planEvent, retrievalEvent, writerEvent, criticEvent,
      verifierEvent] }

end Graph

namespace Graph

/-- `roundHalfEven` never leaves the interval `[⌊q⌋, ⌈q⌉]`. -/
theorem roundHalfEven_bounds (q : ℚ) :
    ⌊q⌋ ≤ roundHalfEven q ∧ roundHalfEven q ≤ ⌈q⌉ := by
  unfold roundHalfEven
  split_ifs with h1 h2 h3
  · exact ⟨le_refl _, Int.floor_le_ceil q⟩
  · refine ⟨by omega, ?_⟩
    have hq : (⌊q⌋ : ℚ) < q := by linarith
    have hfc : ⌊q⌋ < ⌈q⌉ := by
      exact_mod_cast lt_of_lt_of_le hq (Int.le_ceil q)
    omega
  · exact ⟨le_refl _, Int.floor_le_ceil q⟩
  · have hhalf : q - ⌊q⌋ = 1/2 := le_antisymm (not_lt.mp h2) (not_lt.mp h1)
    have hq : (⌊q⌋ : ℚ) < q := by linarith
    refine ⟨by omega, ?_⟩
    have hfc : ⌊q⌋ < ⌈q⌉ := by
      exact_mod_cast lt_of_lt_of_le hq (Int.le_ceil q)
    omega

/-- Rounding to two decimal places stays at or above `2/5` for inputs at or
above `2/5`. -/
theorem round2_ge_of_ge (q : ℚ) (h : 2/5 ≤ q) : 2/5 ≤ round2 q := by
  have hf : (40:ℤ) ≤ ⌊100 * q⌋ := Int.le_floor.mpr (by push_cast; linarith)
  have h1 := (roundHalfEven_bounds (100 * q)).1
  have h2 : (40:ℚ) ≤ (roundHalfEven (100 * q) : ℚ) := by
    exact_mod_cast le_trans hf h1
  unfold round2
  linarith

/-- Rounding to two decimal places stays at or below `1` for inputs at or
below `1`. -/
theorem round2_le_one_of_le (q : ℚ) (h : q ≤ 1) : round2 q ≤ 1 := by
  have hc : ⌈100 * q⌉ ≤ (100:ℤ) := Int.ceil_le.mpr (by push_cast; linarith)
  have h2 := (roundHalfEven_bounds (100 * q)).2
  have h3 : (roundHalfEven (100 * q) : ℚ) ≤ 100 := by
    exact_mod_cast le_trans h2 hc
  unfold round2
  linarith

/-- When evidence and claims are both present, the derived confidence is the
rounded affine function of the supported ratio, and lies in `[2/5, 1]`. -/
theorem deriveConfidence_cases (claims : List ClaimVerification)
    (evidence : List EvidenceChunk) (he : evidence ≠ []) (hc : claims ≠ []) :
    deriveConfidence claims evidence =
      round2 (2/5 + 3/5 *
        (((claims.filter fun c => c.verdict == "supported".toList).length : ℚ) /
          (claims.length : ℚ))) ∧
    2/5 ≤ deriveConfidence claims evidence ∧
    deriveConfidence claims evidence ≤ 1 := by
  have hlen : 0 < claims.length := List.length_pos.mpr hc
  have hmax : max claims.length 1 = claims.length := Nat.max_eq_left hlen
  have hEq : deriveConfidence claims evidence =
      round2 (2/5 + 3/5 *
        (((claims.filter fun c => c.verdict == "supported".toList).length : ℚ) /
          (claims.length : ℚ))) := by
    simp only [deriveConfidence, if_neg he, if_neg hc, hmax]
  have hd : (0:ℚ) < (claims.length : ℚ) := by exact_mod_cast hlen
  have hfl : ((claims.filter fun c => c.verdict == "supported".toList).length : ℚ) ≤
      (claims.length : ℚ) := by
    exact_mod_cast List.length_filter_le _ claims
  have hr0 : (0:ℚ) ≤
      (((claims.filter fun c => c.verdict == "supported".toList).length : ℚ) /
        (claims.length : ℚ)) := by positivity
  have hr1 : (((claims.filter fun c => c.verdict == "supported".toList).length : ℚ) /
      (claims.length : ℚ)) ≤ 1 := (div_le_one hd).mpr hfl
  refine ⟨hEq, ?_, ?_⟩
  · rw [hEq]
    exact round2_ge_of_ge _ (by linarith)
  · rw [hEq]
    exact round2_le_one_of_le _ (by linarith)

end Graph

/-- C3: the derived pipeline confidence is `0` when evidence is empty, `0.2`
when evidence is non-empty and claims are empty, and
`round(0.4 + 0.6 * (supported_claim_count / total_claim_count), 2)` when both
are non-empty; in every case it lies in `[0, 1]`. -/
theorem derive_confidence_spec (claims : List Graph.ClaimVerification)
    (evidence : List Graph.EvidenceChunk) :
    (evidence = [] → Graph.deriveConfidence claims evidence = 0) ∧
    (evidence ≠ [] → claims = [] → Graph.deriveConfidence claims evidence = 1/5) ∧
    (evidence ≠ [] → claims ≠ [] →
      Graph.deriveConfidence claims evidence =
        Graph.round2 (2/5 + 3/5 *
          (((claims.filter fun c => c.verdict == "supported".toList).length : ℚ) /
            (claims.length : ℚ)))) ∧
    0 ≤ Graph.deriveConfidence claims evidence ∧
    Graph.deriveConfidence claims evidence ≤ 1 := by
  refine ⟨?_, ?_, ?_, ?_⟩
  · intro he; simp [Graph.deriveConfidence, he]
  · intro he hc; simp [Graph.deriveConfidence, he, hc]
  · intro he hc; exact (Graph.deriveConfidence_cases claims evidence he hc).1
  · by_cases he : evidence = []
    · simp [Graph.deriveConfidence, he]
    · by_cases hc : claims = []
      · simp [Graph.deriveConfidence, he, hc]
        norm_num
      · obtain ⟨-, h1, h2⟩ := Graph.deriveConfidence_cases claims evidence he hc
        constructor <;> linarith

/-- C4: for every pipeline run, the result's `refusal` flag is true exactly
when the computed `confidence_score` is strictly below `0.4`. -/
theorem refusal_threshold (gen : Str → Str → Str)
    (pgSearch : Str → Nat → List PgStore.SearchRow) (now : Nat → Str)
    (query : Str) (maxSources : Nat) :
    ((Graph.runGraph gen pgSearch now query maxSources).confidence_score < 2/5 →
      (Graph.runGraph gen pgSearch now query maxSources).refusal = true) ∧
    (2/5 ≤ (Graph.runGraph gen pgSearch now query maxSources).confidence_score →
      (Graph.runGraph gen pgSearch now query maxSources).refusal = false) := by
  have h : (Graph.runGraph gen pgSearch now query maxSources).refusal =
      decide ((Graph.runGraph gen pgSearch now query maxSources).confidence_score
        < 2/5) := rfl
  constructor
  · intro h1; rw [h]; exact decide_eq_true h1
  · intro h1; rw [h]; exact decide_eq_false (not_lt.mpr h1)

/-- C10: a run whose verifier extracted at least one claim from non-empty
evidence has confidence at least `0.4` and is never refused; and the derived
confidence never falls in the open interval `(0.2, 0.4)`. -/
theorem confidence_gap_no_refusal :
    (∀ (gen : Str → Str → Str) (pgSearch : Str → Nat → List PgStore.SearchRow)
      (now : Nat → Str) (query : Str) (maxSources : Nat),
      (Graph.runGraph gen pgSearch now query maxSources).evidence ≠ [] →
      (Graph.runGraph gen pgSearch now query maxSources).claim_verifications ≠ [] →
      2/5 ≤ (Graph.runGraph gen pgSearch now query maxSources).confidence_score ∧
      (Graph.runGraph gen pgSearch now query maxSources).refusal = false) ∧
    (∀ (claims : List Graph.ClaimVerification)
      (evidence : List Graph.EvidenceChunk),
      ¬(1/5 < Graph.deriveConfidence claims evidence ∧
        Graph.deriveConfidence claims evidence < 2/5)) := by
  constructor
  · intro gen pgSearch now query maxSources he hc
    have hconf : (Graph.runGraph gen pgSearch now query maxSources).confidence_score =
        Graph.deriveConfidence
          (Graph.runGraph gen pgSearch now query maxSources).claim_verifications
          (Graph.runGraph gen pgSearch now query maxSources).evidence := rfl
    have href : (Graph.runGraph gen pgSearch now query maxSources).refusal =
        decide ((Graph.runGraph gen pgSearch now query maxSources).confidence_score
          < 2/5) := rfl
    have hge : 2/5 ≤ (Graph.runGraph gen pgSearch now query maxSources).confidence_score := by
      rw [hconf]
      exact (Graph.deriveConfidence_cases _ _ he hc).2.1
    exact ⟨hge, by rw [href]; exact decide_eq_false (not_lt.mpr hge)⟩
  · intro claims evidence
    by_cases he : evidence = []
    · simp [Graph.deriveConfidence, he]
    · by_cases hc : claims = []
      · simp [Graph.deriveConfidence, he, hc]
      · have := (Graph.deriveConfidence_cases claims evidence he hc).2.1
        rintro ⟨-, h2⟩
        linarith

/-- C5: the Writer emits exactly one citation per evidence chunk, in the order
the evidence was supplied, with matching `source_id`, sequential citation ids
`cit-000`, `cit-001`, …, and the snippet a prefix of the chunk text of at
most 200 characters. -/
theorem writer_citations (gen : Str → Str → Str) (query : Str)
    (evidence : List Graph.EvidenceChunk) :
    (Graph.writerRun gen query evidence).citations.length = evidence.length ∧
    ∀ (i : Nat) (hc : i < (Graph.writerRun gen query evidence).citations.length)
      (he : i < evidence.length),
      ((Graph.writerRun gen query evidence).citations.get ⟨i, hc⟩).source_id =
        (evidence.get ⟨i, he⟩).source_id ∧
      ((Graph.writerRun gen query evidence).citations.get ⟨i, hc⟩).citation_id =
        "cit-".toList ++ Graph.pad3 i ∧
      ((Graph.writerRun gen query evidence).citations.get ⟨i, hc⟩).snippet =
        (evidence.get ⟨i, he⟩).text.take 200 ∧
      ((Graph.writerRun gen query evidence).citations.get ⟨i, hc⟩).snippet.length
        ≤ 200 ∧
      ((Graph.writerRun gen query evidence).citations.get ⟨i, hc⟩).snippet <+:
        (evidence.get ⟨i, he⟩).text := by
  have hcit : (Graph.writerRun gen query evidence).citations =
      evidence.enum.map fun ic => Graph.citationFor ic.1 ic.2 := rfl
  have hlen : (Graph.writerRun gen query evidence).citations.length =
      evidence.length := by
    rw [hcit, List.length_map, List.enum_length]
  refine ⟨hlen, ?_⟩
  intro i hc he
  have hget : (Graph.writerRun gen query evidence).citations.get ⟨i, hc⟩ =
      Graph.citationFor i (evidence.get ⟨i, he⟩) := by
    have hc' : i < (evidence.enum.map fun ic => Graph.citationFor ic.1 ic.2).length := by
      rw [← hcit]; exact hc
    have he' : i < evidence.enum.length := by rw [List.enum_length]; exact he
    calc (Graph.writerRun gen query evidence).citations.get ⟨i, hc⟩
        = (evidence.enum.map fun ic => Graph.citationFor ic.1 ic.2)[i] := by
          simp only [List.get_eq_getElem]
          congr 1
      _ = Graph.citationFor (evidence.enum[i]).1 (evidence.enum[i]).2 := by
          rw [List.getElem_map]
      _ = Graph.citationFor i (evidence.get ⟨i, he⟩) := by
          rw [List.getElem_enum]
          simp [List.get_eq_getElem]
  rw [hget]
  refine ⟨rfl, rfl, rfl, ?_, ?_⟩
  · show ((evidence.get ⟨i, he⟩).text.take 200).length ≤ 200
    rw [List.length_take]
    exact Nat.min_le_left _ _
  · exact ⟨(evidence.get ⟨i, he⟩).text.drop 200, List.take_append_drop _ _⟩

/-- C6: the Verifier yields no claims when the answer or the evidence is
empty, and otherwise a non-empty sequence of at most 2 claim verifications. -/
theorem verifier_empty_and_bound (gen : Str → Str → Str) (answer : Str)
    (evidence : List Graph.EvidenceChunk) :
    ((answer = [] ∨ evidence = []) → Graph.verifierRun gen answer evidence = []) ∧
    (answer ≠ [] → evidence ≠ [] →
      Graph.verifierRun gen answer evidence ≠ [] ∧
      (Graph.verifierRun gen answer evidence).length ≤ 2) := by
  constructor
  · intro h
    simp only [Graph.verifierRun, if_pos h]
  · intro h1 h2
    have hcond : ¬(answer = [] ∨ evidence = []) := by
      rintro (h | h)
      · exact h1 h
      · exact h2 h
    constructor <;> simp [Graph.verifierRun, if_neg hcond]

set_option maxRecDepth 10000

/-- C7 counterexample: with the stub generation backend and the 194-character
query `"zz…z"`, the writer's answer on empty evidence does not contain the
query text: the stub truncates the user content to 200 characters
(`user_content[:200]`), leaving only 193 of the query's 194 characters in the
answer. -/
theorem writer_empty_evidence_long_query :
    ¬ (List.replicate 194 'z' <:+:
      (Graph.writerRun Graph.stubGenerate (List.replicate 194 'z')
        []).draft_answer) := by
  decide

/-- C7 (amended): the no-sources answer is the fallback for the case that the
generation capability returns empty text: then for every query the writer's
empty-evidence answer is exactly `"No indexed sources matched the query: " +
query`, which contains the literal query text and states that no indexed
sources matched.  When the capability returns non-empty text, that text is
the answer as-is and need not contain the query (the stub backend truncates
the user content at 200 characters; see the counterexample). -/
theorem writer_empty_evidence_fallback (gen : Str → Str → Str) (query : Str)
    (hgen : gen Graph.writerPrompt (Graph.writerUser query []) = []) :
    (Graph.writerRun gen query []).draft_answer = Graph.noSourcesAnswer query ∧
    query <:+: (Graph.writerRun gen query []).draft_answer ∧
    "No indexed sources matched the query: ".toList <+:
      (Graph.writerRun gen query []).draft_answer := by
  have hans : (Graph.writerRun gen query []).draft_answer =
      Graph.noSourcesAnswer query := by
    simp only [Graph.writerRun, hgen, if_pos]
  refine ⟨hans, ?_, ?_⟩
  · rw [hans]
    exact ⟨"No indexed sources matched the query: ".toList, [], by
      simp [Graph.noSourcesAnswer]⟩
  · rw [hans]
    exact ⟨query, rfl⟩

/-- C7 witness: the fallback evaluated at the query `"q"` with a generation
capability that returns empty text. -/
theorem writer_empty_evidence_fallback_witness :
    (Graph.writerRun (fun _ _ => []) "q".toList []).draft_answer =
      Graph.noSourcesAnswer "q".toList ∧
    "q".toList <:+: (Graph.writerRun (fun _ _ => []) "q".toList []).draft_answer ∧
    "No indexed sources matched the query: ".toList <+:
      (Graph.writerRun (fun _ _ => []) "q".toList []).draft_answer :=
  writer_empty_evidence_fallback (fun _ _ => []) "q".toList rfl

/-! ## The trace store (`trace_store.py`)

`TraceStore` persists one row per trace id (`trace_id TEXT PRIMARY KEY,
query TEXT, events_json TEXT`) in an embedded SQLite database, serializing
the event list with `json.dumps` and reading it back with `json.loads`.
SQLite and the `json` module are external collaborators (Python standard
library, not repository code); the spec requires of the encoding only an
"ordered, lossless round-trip of the TraceEvent fields". -/

namespace Traces

/-- A length marker: `n` copies of `'1'` and a colon. -/
def encLen (n : Nat) : Str := List.replicate n '1' ++ [':']

/-- Reads a length marker from the front of `s`. -/
def decLen (s : Str) : Option (Nat × Str) :=
  let rest := s.dropWhile (· == '1')
  if rest.head? = some ':' then
    some ((s.takeWhile (· == '1')).length, rest.tail)
  else none

/-- A length-prefixed string. -/
def encStr (v : Str) : Str := encLen v.length ++ v

/-- Reads a length-prefixed string from the front of `s`. -/
def decStr (s : Str) : Option (Str × Str) :=
  match decLen s with
  | none => none
  | some (n, rest) =>
    if n ≤ rest.length then some (rest.take n, rest.drop n) else none

/-- A sign character and the magnitude's length marker. -/
def encInt (i : ℤ) : Str :=
  (if i < 0 then '-' else '+') :: encLen i.natAbs

/-- Reads an integer from the front of `s`. -/
def decInt (s : Str) : Option (ℤ × Str) :=
  match s with
  | [] => none
  | c :: rest =>
    if c = '-' then (decLen rest).map fun p => (-(p.1 : ℤ), p.2)
    else if c = '+' then (decLen rest).map fun p => ((p.1 : ℤ), p.2)
    else none

/-- A tagged payload value. -/
def encPVal : Graph.PVal → Str
  | .s v => 's' :: encStr v
  | .i v => 'i' :: encInt v
  | .q v => 'q' :: (encInt v.num ++ encLen v.den)
  | .b v => [if v then 't' else 'f']
  | .ls v => 'l' :: (encLen v.length ++ (v.map encStr).flatten)

/-- Reads `n` length-prefixed strings from the front of `s`. -/
def decStrs : Nat → Str → Option (List Str × Str)
  | 0, s => some ([], s)
  | n + 1, s =>
    match decStr s with
    | none => none
    | some (v, rest) =>
      match decStrs n rest with
      | none => none
      | some (vs, rest') => some (v :: vs, rest')

/-- Reads a tagged payload value from the front of `s`. -/
def decPVal (s : Str) : Option (Graph.PVal × Str) :=
  match s with
  | [] => none
  | c :: rest =>
    if c = 's' then (decStr rest).map fun p => (.s p.1, p.2)
    else if c = 'i' then (decInt rest).map fun p => (.i p.1, p.2)
    else if c = 'q' then
      match decInt rest with
      | none => none
      | some (num, rest') =>
        (decLen rest').map fun p => (.q ((num : ℚ) / (p.1 : ℚ)), p.2)
    else if c = 't' then some (.b true, rest)
    else if c = 'f' then some (.b false, rest)
    else if c = 'l' then
      match decLen rest with
      | none => none
      | some (n, rest') => (decStrs n rest').map fun p => (.ls p.1, p.2)
    else none

/-- A payload dict: entry count, then each key–value pair. -/
def encPayload (payload : List (Str × Graph.PVal)) : Str :=
  encLen payload.length ++
    (payload.map fun kv => encStr kv.1 ++ encPVal kv.2).flatten

/-- Reads `n` key–value pairs from the front of `s`. -/
def decPairs : Nat → Str → Option (List (Str × Graph.PVal) × Str)
  | 0, s => some ([], s)
  | n + 1, s =>
    match decStr s with
    | none => none
    | some (k, rest) =>
      match decPVal rest with
      | none => none
      | some (v, rest') =>
        match decPairs n rest' with
        | none => none
        | some (kvs, rest'') => some ((k, v) :: kvs, rest'')

/-- Reads a payload dict from the front of `s`. -/
def decPayload (s : Str) : Option (List (Str × Graph.PVal) × Str) :=
  match decLen s with
  | none => none
  | some (n, rest) => decPairs n rest

/-- One serialized trace event: its four string fields and its payload. -/
def encEvent (ev : Graph.TraceEvent) : Str :=
  encStr ev.event_id ++ encStr ev.agent ++ encStr ev.event_type ++
    encStr ev.timestamp ++ encPayload ev.payload

/-- Reads one serialized trace event from the front of `s`. -/
def decEvent (s : Str) : Option (Graph.TraceEvent × Str) :=
  match decStr s with
  | none => none
  | some (eventId, s1) =>
    match decStr s1 with
    | none => none
    | some (agent, s2) =>
      match decStr s2 with
      | none => none
      | some (eventType, s3) =>
        match decStr s3 with
        | none => none
        | some (timestamp, s4) =>
          match decPayload s4 with
          | none => none
          | some (payload, s5) =>
            some ({ event_id := eventId, agent := agent,
                    event_type := eventType, timestamp := timestamp,
                    payload := payload }, s5)

/-- Reads `n` serialized trace events from the front of `s`. -/
def decEvents : Nat → Str → Option (List Graph.TraceEvent × Str)
  | 0, s => some ([], s)
  | n + 1, s =>
    match decEvent s with
    | none => none
    | some (ev, rest) =>
      match decEvents n rest with
      | none => none
      | some (evs, rest') => some (ev :: evs, rest')

/-- Modelled from the spec: `json.dumps(events, ensure_ascii=True)` in
`save_trace` — the Python standard library's JSON serialization of the event
dicts, of which the spec requires only an "ordered, lossless round-trip of
the TraceEvent fields"; here a length-prefixed encoding with the same
contract (`loadsEvents_dumpsEvents`). -/
def dumpsEvents (events : List Graph.TraceEvent) : Str :=
  encLen events.length ++ (events.map encEvent).flatten

/-- Modelled from the spec: `json.loads(row[2])` in `get_trace` — the decoder
matching `dumpsEvents`. -/
def loadsEvents (s : Str) : Option (List Graph.TraceEvent) :=
  match decLen s with
  | none => none
  | some (n, rest) =>
    match decEvents n rest with
    | none => none
    | some (evs, rest') => if rest' = [] then some evs else none

/-- The `traces` table: one row `(trace_id, query, events_json)` per trace
id (`trace_id TEXT PRIMARY KEY`). -/
structure TraceDB where
  rows : List (Str × Str × Str)

/-- `TraceStore.save_trace(trace_id, query, events)`:
`INSERT ... ON CONFLICT(trace_id) DO UPDATE SET query=..., events_json=...`
— an upsert keyed on the trace id. -/
def saveTrace (db : TraceDB) (traceId query : Str)
    (events : List Graph.TraceEvent) : TraceDB :=
  if db.rows.any fun r => r.1 == traceId then
    ⟨db.rows.map fun r =>
      if r.1 == traceId then (r.1, query, dumpsEvents events) else r⟩
  else ⟨db.rows ++ [(traceId, query, dumpsEvents events)]⟩

/-- `TraceStore.get_trace(trace_id)`: the row with that id, with its event
list deserialized, or `None` when no row matches. -/
def getTrace (db : TraceDB) (traceId : Str) :
    Option (Str × Str × List Graph.TraceEvent) :=
  match db.rows.find? fun r => r.1 == traceId with
  | none => none
  | some (tid, query, eventsJson) =>
    (loadsEvents eventsJson).map fun events => (tid, query, events)

end Traces
namespace Traces

/-- Reading back a length marker recovers the length and the rest. -/
theorem decLen_encLen (n : Nat) (tail : Str) :
    decLen (encLen n ++ tail) = some (n, tail) := by
  have hdrop : ∀ m : Nat,
      (List.replicate m '1' ++ (':' :: tail)).dropWhile (· == '1') =
        ':' :: tail := by
    intro m
    induction m with
    | zero => exact List.dropWhile_cons_of_neg (by decide)
    | succ m ih =>
      rw [List.replicate_succ, List.cons_append,
        List.dropWhile_cons_of_pos (by decide)]
      exact ih
  have htake : ∀ m : Nat,
      (List.replicate m '1' ++ (':' :: tail)).takeWhile (· == '1') =
        List.replicate m '1' := by
    intro m
    induction m with
    | zero => exact List.takeWhile_cons_of_neg (by decide)
    | succ m ih =>
      rw [List.replicate_succ, List.cons_append,
        List.takeWhile_cons_of_pos (by decide)]
      rw [ih]
  have hsplit : encLen n ++ tail = List.replicate n '1' ++ (':' :: tail) := by
    simp [encLen]
  rw [decLen, hsplit, hdrop, htake]
  simp

/-- Reading back a length-prefixed string recovers it and the rest. -/
theorem decStr_encStr (v tail : Str) :
    decStr (encStr v ++ tail) = some (v, tail) := by
  rw [encStr, List.append_assoc, decStr, decLen_encLen]
  simp only
  rw [if_pos (by simp), List.take_left, List.drop_left]

/-- Reading back an encoded integer recovers it and the rest. -/
theorem decInt_encInt (i : ℤ) (tail : Str) :
    decInt (encInt i ++ tail) = some (i, tail) := by
  by_cases h : i < 0
  · rw [encInt, if_pos h, List.cons_append, decInt, if_pos rfl, decLen_encLen,
      Option.map_some']
    congr 2
    omega
  · rw [encInt, if_neg h, List.cons_append, decInt,
      if_neg (by decide), if_pos rfl, decLen_encLen, Option.map_some']
    congr 2
    omega

/-- Reading back `n` encoded strings recovers them and the rest. -/
theorem decStrs_enc (vs : List Str) (tail : Str) :
    decStrs vs.length ((vs.map encStr).flatten ++ tail) = some (vs, tail) := by
  induction vs generalizing tail with
  | nil => simp [decStrs]
  | cons v vs ih =>
    simp only [List.map_cons, List.flatten_cons, List.length_cons,
      List.append_assoc, decStrs, decStr_encStr, ih]

/-- Reading back an encoded payload value recovers it and the rest. -/
theorem decPVal_encPVal (v : Graph.PVal) (tail : Str) :
    decPVal (encPVal v ++ tail) = some (v, tail) := by
  cases v with
  | s v =>
    rw [encPVal, List.cons_append, decPVal, if_pos rfl, decStr_encStr,
      Option.map_some']
  | i v =>
    rw [encPVal, List.cons_append, decPVal, if_neg (by decide), if_pos rfl,
      decInt_encInt, Option.map_some']
  | q v =>
    rw [encPVal, List.cons_append, decPVal, if_neg (by decide),
      if_neg (by decide), if_pos rfl, List.append_assoc, decInt_encInt]
    simp only [decLen_encLen, Option.map_some']
    rw [Rat.num_div_den]
  | b v =>
    cases v with
    | true =>
      rw [encPVal]
      show decPVal ('t' :: tail) = some (.b true, tail)
      rw [decPVal, if_neg (by decide), if_neg (by decide), if_neg (by decide),
        if_pos rfl]
    | false =>
      rw [encPVal]
      show decPVal ('f' :: tail) = some (.b false, tail)
      rw [decPVal, if_neg (by decide), if_neg (by decide), if_neg (by decide),
        if_neg (by decide), if_pos rfl]
  | ls v =>
    rw [encPVal, List.cons_append, decPVal, if_neg (by decide),
      if_neg (by decide), if_neg (by decide), if_neg (by decide),
      if_neg (by decide), if_pos rfl, List.append_assoc, decLen_encLen]
    simp only [decStrs_enc, Option.map_some']

/-- Reading back `n` encoded key–value pairs recovers them and the rest. -/
theorem decPairs_enc (kvs : List (Str × Graph.PVal)) (tail : Str) :
    decPairs kvs.length
      ((kvs.map fun kv => encStr kv.1 ++ encPVal kv.2).flatten ++ tail) =
      some (kvs, tail) := by
  induction kvs generalizing tail with
  | nil => simp [decPairs]
  | cons kv kvs ih =>
    simp only [List.map_cons, List.flatten_cons, List.length_cons,
      List.append_assoc, decPairs, decStr_encStr, decPVal_encPVal, ih]

/-- Reading back an encoded payload dict recovers it and the rest. -/
theorem decPayload_encPayload (payload : List (Str × Graph.PVal)) (tail : Str) :
    decPayload (encPayload payload ++ tail) = some (payload, tail) := by
  simp only [encPayload, List.append_assoc, decPayload, decLen_encLen,
    decPairs_enc]

/-- Reading back an encoded trace event recovers every field and the rest. -/
theorem decEvent_encEvent (ev : Graph.TraceEvent) (tail : Str) :
    decEvent (encEvent ev ++ tail) = some (ev, tail) := by
  simp only [encEvent, List.append_assoc, decEvent, decStr_encStr,
    decPayload_encPayload]

/-- Reading back `n` encoded trace events recovers them and the rest. -/
theorem decEvents_enc (events : List Graph.TraceEvent) (tail : Str) :
    decEvents events.length ((events.map encEvent).flatten ++ tail) =
      some (events, tail) := by
  induction events generalizing tail with
  | nil => simp [decEvents]
  | cons ev events ih =>
    simp only [List.map_cons, List.flatten_cons, List.length_cons,
      List.append_assoc, decEvents, decEvent_encEvent, ih]

/-- The serialization contract: the event list round-trips losslessly, every
field and the order preserved. -/
theorem loadsEvents_dumpsEvents (events : List Graph.TraceEvent) :
    loadsEvents (dumpsEvents events) = some events := by
  have h := decEvents_enc events []
  rw [List.append_nil] at h
  rw [dumpsEvents, loadsEvents, decLen_encLen]
  simp [h]

end Traces

/-- C9: saving a trace and reading it back by its id returns the trace id,
the original query, and the event list with every `TraceEvent` field
preserved losslessly and in the original order; reading a trace id that was
never saved returns an explicit absence (`none`) rather than raising. -/
theorem trace_roundtrip :
    (∀ (db : Traces.TraceDB) (traceId query : Str)
      (events : List Graph.TraceEvent),
      Traces.getTrace (Traces.saveTrace db traceId query events) traceId =
        some (traceId, query, events)) ∧
    (∀ (db : Traces.TraceDB) (traceId : Str),
      (∀ r ∈ db.rows, r.1 ≠ traceId) →
      Traces.getTrace db traceId = none) := by
  constructor
  · intro db traceId query events
    by_cases h : db.rows.any fun r => r.1 == traceId
    · rw [Traces.saveTrace, if_pos h, Traces.getTrace]
      have hcomp : ((fun r : Str × Str × Str => r.1 == traceId) ∘ fun r =>
          if r.1 == traceId then (r.1, query, Traces.dumpsEvents events)
          else r) = fun r : Str × Str × Str => r.1 == traceId := by
        funext r
        by_cases hr : (r.1 == traceId) = true
        · simp only [Function.comp_apply, if_pos hr]
        · simp only [Function.comp_apply, if_neg hr]
      obtain ⟨r0, hr0mem, hr0⟩ := List.any_eq_true.mp h
      have hsome : (db.rows.find? fun r => r.1 == traceId).isSome :=
        List.find?_isSome.mpr ⟨r0, hr0mem, hr0⟩
      obtain ⟨r1, hr1⟩ := Option.isSome_iff_exists.mp hsome
      have hr1p := List.find?_some hr1
      have hr1eq : r1.1 = traceId := beq_iff_eq.mp hr1p
      rw [List.find?_map, hcomp, hr1, Option.map_some', if_pos hr1p]
      simp [Traces.loadsEvents_dumpsEvents, hr1eq]
    · rw [Traces.saveTrace, if_neg h, Traces.getTrace]
      have hnone : (db.rows.find? fun r => r.1 == traceId) = none := by
        rw [List.find?_eq_none]
        intro r hr hp
        exact h (List.any_eq_true.mpr ⟨r, hr, hp⟩)
      have hfind1 : (List.find? (fun r : Str × Str × Str => r.1 == traceId)
          [(traceId, query, Traces.dumpsEvents events)]) =
          some (traceId, query, Traces.dumpsEvents events) :=
        List.find?_cons_of_pos _ (beq_self_eq_true traceId)
      rw [List.find?_append, hnone, hfind1]
      simp [Traces.loadsEvents_dumpsEvents, Option.or]
  · intro db traceId hno
    rw [Traces.getTrace]
    have hnone : (db.rows.find? fun r => r.1 == traceId) = none := by
      rw [List.find?_eq_none]
      intro r hr hp
      exact hno r hr (beq_iff_eq.mp hp)
    rw [hnone]
